import Mathlib

/-!
Verification of the sharp-code-shepherd streaming front-end.

This file shallowly embeds the parts of the repository that the frozen
claims talk about:

* the manifest proxy handler and its URL rewriting (api/m3u8-proxy.ts),
* the HLS backend error/retry logic, the timeline reconciler
  (getTimeStats) and the seek target computation (calculateNewTime)
  of src/components/VideoPlayer.tsx,
* the failover cursor of src/pages/EventPlayer.tsx,
* the catalog M3U parser (api/parse-m3u.ts),
* the proxy URL helpers (src/lib/urlEncryption.ts).

JavaScript strings are modelled as Lean String / List Char; JavaScript
numbers are modelled by an extended-rational carrier JSNum that keeps
track of the infinities and NaN (no floating-point rounding is involved
in any claim).  Each definition mirrors one source function and is
executable, so concrete playlists and states can be evaluated inside
theorems by kernel reduction.
-/

namespace Shepherd

/-! ## Character and string primitives (models of the JS builtins) -/

/-- ASCII decimal digit. -/
def isAsciiDigit (c : Char) : Bool := decide (48 ≤ c.toNat) && decide (c.toNat ≤ 57)

/-- ASCII uppercase letter. -/
def isAsciiUpper (c : Char) : Bool := decide (65 ≤ c.toNat) && decide (c.toNat ≤ 90)

/-- ASCII lowercase letter. -/
def isAsciiLower (c : Char) : Bool := decide (97 ≤ c.toNat) && decide (c.toNat ≤ 122)

/-- ASCII alphanumeric, the class [a-zA-Z0-9] used by the catalog parser. -/
def isAsciiAlnum (c : Char) : Bool := isAsciiDigit c || isAsciiUpper c || isAsciiLower c

/-- Lower-case one character (model of String.prototype.toLowerCase,
restricted to ASCII; every character the claims exercise is ASCII). -/
def lowerChar (c : Char) : Char :=
  if isAsciiUpper c then Char.ofNat (c.toNat + 32) else c

/-- Model of JS String.prototype.toLowerCase. -/
def jsToLower (s : String) : String := String.mk (s.data.map lowerChar)

/-- The JS whitespace class used by String.prototype.trim (and \s). -/
def jsIsWhite (c : Char) : Bool :=
  c = ' ' || c = Char.ofNat 9 || c = Char.ofNat 10 || c = Char.ofNat 11 ||
  c = Char.ofNat 12 || c = Char.ofNat 13 || c = Char.ofNat 0xA0 ||
  c = Char.ofNat 0xFEFF || c = Char.ofNat 0x1680 ||
  (decide (0x2000 ≤ c.toNat) && decide (c.toNat ≤ 0x200A)) ||
  c = Char.ofNat 0x2028 || c = Char.ofNat 0x2029 || c = Char.ofNat 0x202F ||
  c = Char.ofNat 0x205F || c = Char.ofNat 0x3000

/-- Model of JS String.prototype.trim on a character list. -/
def jsTrimList (l : List Char) : List Char :=
  ((l.dropWhile jsIsWhite).reverse.dropWhile jsIsWhite).reverse

/-- Model of JS String.prototype.trim. -/
def jsTrim (s : String) : String := String.mk (jsTrimList s.data)

/-- Does the list start with the given pattern?  (Model of
String.prototype.startsWith at a list position.) -/
def listStartsWith : List Char → List Char → Bool
  | _, [] => true
  | [], _ :: _ => false
  | c :: cs, p :: ps => c = p && listStartsWith cs ps

/-- Model of JS String.prototype.startsWith. -/
def jsStartsWith (s pat : String) : Bool := listStartsWith s.data pat.data

/-- Does the list contain the pattern as a contiguous sublist?
(Model of String.prototype.includes.) -/
def listIncludes (s pat : List Char) : Bool :=
  match s with
  | [] => listStartsWith [] pat
  | _ :: cs => listStartsWith s pat || listIncludes cs pat

/-- Model of JS String.prototype.includes. -/
def jsIncludes (s pat : String) : Bool := listIncludes s.data pat.data

/-- Model of JS String.prototype.endsWith (used only to state the
spec-side notion of a URL ending in a playlist extension). -/
def jsEndsWith (s pat : String) : Bool :=
  listStartsWith s.data.reverse pat.data.reverse

/-- Split a character list on a separator character; mirrors
String.prototype.split with a one-character separator (an empty string
yields the one-element list [[]], like in JS). -/
def splitOnChar (sep : Char) : List Char → List (List Char)
  | [] => [[]]
  | c :: cs =>
    if c = sep then [] :: splitOnChar sep cs
    else
      match splitOnChar sep cs with
      | [] => [[c]]
      | h :: t => (c :: h) :: t

/-- Model of s.split(sep) for a one-character separator. -/
def jsSplit (s : String) (sep : Char) : List String :=
  (splitOnChar sep s.data).map String.mk

/-- Join chunks with a one-character separator; mirrors
Array.prototype.join for the playlist rewriter. -/
def joinWith (sep : Char) : List (List Char) → List Char
  | [] => []
  | [l] => l
  | l :: h :: t => l ++ sep :: joinWith sep (h :: t)

/-- Model of parts.join(sep) for a one-character separator. -/
def jsJoinStr (sep : Char) (parts : List String) : String :=
  String.mk (joinWith sep (parts.map String.data))

/-! ## Percent encoding (models of encodeURIComponent / decodeURIComponent
and of the decoding done by URLSearchParams.get) -/

/-- Characters encodeURIComponent leaves unescaped:
A-Z a-z 0-9 - _ . ! ~ * apostrophe ( ). -/
def uriUnescaped (c : Char) : Bool :=
  isAsciiAlnum c || c = '-' || c = '_' || c = '.' || c = '!' || c = '~' ||
  c = '*' || c = Char.ofNat 39 || c = '(' || c = ')'

/-- UTF-8 bytes of one unicode scalar value. -/
def utf8Bytes (c : Char) : List Nat :=
  let n := c.toNat
  if n < 0x80 then [n]
  else if n < 0x800 then [0xC0 + n / 64, 0x80 + n % 64]
  else if n < 0x10000 then [0xE0 + n / 4096, 0x80 + (n / 64) % 64, 0x80 + n % 64]
  else [0xF0 + n / 262144, 0x80 + (n / 4096) % 64, 0x80 + (n / 64) % 64, 0x80 + n % 64]

/-- Upper-case hex digit, as produced by encodeURIComponent. -/
def hexDigitUpper (n : Nat) : Char :=
  if n < 10 then Char.ofNat (48 + n) else Char.ofNat (55 + n)

/-- %XY escape of one byte. -/
def pctByte (b : Nat) : List Char :=
  ['%', hexDigitUpper (b / 16), hexDigitUpper (b % 16)]

/-- Model of JS encodeURIComponent on a character list. -/
def encodeURIComponentList (l : List Char) : List Char :=
  (l.map (fun c =>
    if uriUnescaped c then [c] else ((utf8Bytes c).map pctByte).flatten)).flatten

/-- Model of JS encodeURIComponent. -/
def encodeURIComponentStr (s : String) : String :=
  String.mk (encodeURIComponentList s.data)

/-- Numeric value of a hex digit, if it is one. -/
def hexVal (c : Char) : Option Nat :=
  if isAsciiDigit c then some (c.toNat - 48)
  else if 65 ≤ c.toNat && c.toNat ≤ 70 then some (c.toNat - 55)
  else if 97 ≤ c.toNat && c.toNat ≤ 102 then some (c.toNat - 87)
  else none

/-- Percent-decode to bytes, strictly: a malformed % escape fails
(decodeURIComponent throws a URIError there). -/
def pctDecodeStrict : List Char → Option (List Nat)
  | [] => some []
  | '%' :: h1 :: h2 :: rest =>
    match hexVal h1, hexVal h2 with
    | some a, some b => (pctDecodeStrict rest).map (fun bs => (16 * a + b) :: bs)
    | _, _ => none
  | '%' :: _ :: [] => none
  | '%' :: [] => none
  | c :: rest =>
    if c = '%' then none
    else (pctDecodeStrict rest).map (fun bs => utf8Bytes c ++ bs)

/-- Percent-and-plus decode to bytes, leniently: + becomes a space and a
malformed % escape is kept literally (URLSearchParams semantics). -/
def queryDecodeBytes : List Char → List Nat
  | [] => []
  | '%' :: h1 :: h2 :: rest =>
    match hexVal h1, hexVal h2 with
    | some a, some b => (16 * a + b) :: queryDecodeBytes rest
    | _, _ => 0x25 :: queryDecodeBytes (h1 :: h2 :: rest)
  | '+' :: rest => 0x20 :: queryDecodeBytes rest
  | c :: rest => utf8Bytes c ++ queryDecodeBytes rest

/-- Is the byte a UTF-8 continuation byte, and its payload. -/
def contByte (b : Nat) : Option Nat :=
  if 0x80 ≤ b && b ≤ 0xBF then some (b - 0x80) else none

/-- Strict UTF-8 decode (rejects overlong encodings and surrogates, as
the JS URIError-throwing decoder does). -/
def utf8DecodeStrict : List Nat → Option (List Char)
  | [] => some []
  | b :: rest =>
    if b < 0x80 then
      (utf8DecodeStrict rest).map (fun cs => Char.ofNat b :: cs)
    else if 0xC2 ≤ b && b ≤ 0xDF then
      match rest with
      | b2 :: rest2 =>
        match contByte b2 with
        | some p2 => (utf8DecodeStrict rest2).map
            (fun cs => Char.ofNat ((b - 0xC0) * 64 + p2) :: cs)
        | none => none
      | [] => none
    else if 0xE0 ≤ b && b ≤ 0xEF then
      match rest with
      | b2 :: b3 :: rest3 =>
        match contByte b2, contByte b3 with
        | some p2, some p3 =>
          let n := (b - 0xE0) * 4096 + p2 * 64 + p3
          if n < 0x800 || (0xD800 ≤ n && n ≤ 0xDFFF) then none
          else (utf8DecodeStrict rest3).map (fun cs => Char.ofNat n :: cs)
        | _, _ => none
      | _ => none
    else if 0xF0 ≤ b && b ≤ 0xF4 then
      match rest with
      | b2 :: b3 :: b4 :: rest4 =>
        match contByte b2, contByte b3, contByte b4 with
        | some p2, some p3, some p4 =>
          let n := (b - 0xF0) * 262144 + p2 * 4096 + p3 * 64 + p4
          if n < 0x10000 || n > 0x10FFFF then none
          else (utf8DecodeStrict rest4).map (fun cs => Char.ofNat n :: cs)
        | _, _, _ => none
      | _ => none
    else none

/-- Lossy UTF-8 decode: an invalid byte becomes U+FFFD (WHATWG decoder
used by URLSearchParams).  Fuel-based so that it reduces in the kernel;
every step consumes at least one byte, so fuel = list length suffices. -/
def utf8LossyAux : Nat → List Nat → List Char
  | 0, _ => []
  | _ + 1, [] => []
  | fuel + 1, b :: rest =>
    if b < 0x80 then Char.ofNat b :: utf8LossyAux fuel rest
    else if 0xC2 ≤ b && b ≤ 0xDF then
      match rest with
      | b2 :: rest2 =>
        match contByte b2 with
        | some p2 => Char.ofNat ((b - 0xC0) * 64 + p2) :: utf8LossyAux fuel rest2
        | none => Char.ofNat 0xFFFD :: utf8LossyAux fuel (b2 :: rest2)
      | [] => [Char.ofNat 0xFFFD]
    else if 0xE0 ≤ b && b ≤ 0xEF then
      match rest with
      | b2 :: b3 :: rest3 =>
        match contByte b2, contByte b3 with
        | some p2, some p3 =>
          let n := (b - 0xE0) * 4096 + p2 * 64 + p3
          if n < 0x800 || (0xD800 ≤ n && n ≤ 0xDFFF) then
            Char.ofNat 0xFFFD :: utf8LossyAux fuel (b2 :: b3 :: rest3)
          else Char.ofNat n :: utf8LossyAux fuel rest3
        | _, _ => Char.ofNat 0xFFFD :: utf8LossyAux fuel (b2 :: b3 :: rest3)
      | rest2 => Char.ofNat 0xFFFD :: utf8LossyAux fuel rest2
    else if 0xF0 ≤ b && b ≤ 0xF4 then
      match rest with
      | b2 :: b3 :: b4 :: rest4 =>
        match contByte b2, contByte b3, contByte b4 with
        | some p2, some p3, some p4 =>
          let n := (b - 0xF0) * 262144 + p2 * 4096 + p3 * 64 + p4
          if n < 0x10000 || n > 0x10FFFF then
            Char.ofNat 0xFFFD :: utf8LossyAux fuel (b2 :: b3 :: b4 :: rest4)
          else Char.ofNat n :: utf8LossyAux fuel rest4
        | _, _, _ => Char.ofNat 0xFFFD :: utf8LossyAux fuel (b2 :: b3 :: b4 :: rest4)
      | rest2 => Char.ofNat 0xFFFD :: utf8LossyAux fuel rest2
    else Char.ofNat 0xFFFD :: utf8LossyAux fuel rest

/-- Lossy UTF-8 decode with enough fuel. -/
def utf8DecodeLossy (bs : List Nat) : List Char := utf8LossyAux bs.length bs

/-- Model of JS decodeURIComponent; none models a thrown URIError. -/
def decodeURIComponentStr (s : String) : Option String :=
  (pctDecodeStrict s.data).bind (fun bs =>
    (utf8DecodeStrict bs).map String.mk)

/-- Decoding of one query-parameter value as done by
URLSearchParams.prototype.get. -/
def queryValueDecode (s : String) : String :=
  String.mk (utf8DecodeLossy (queryDecodeBytes s.data))

/-! ## Manifest proxy (api/m3u8-proxy.ts)

The handler receives the inbound request URL (its origin and pathname
form the proxy prefix) and the upstream response URL (protocol, host and
pathname of the final, post-redirect URL).  The playlist rewriting is the
split / map / join at lines 146-169 of the source, with resolveUrl at
lines 245-263. -/

/-- The origin and pathname of the inbound proxy request URL
(url.origin and url.pathname in the handler). -/
structure ProxyReq where
  origin : String
  pathname : String
deriving DecidableEq, Repr

/-- Protocol, host and pathname of the final upstream response URL
(new URL(response.url)); protocol includes the trailing colon, as in the
JS URL class. -/
structure RespUrl where
  protocol : String
  host : String
  pathname : String
deriving DecidableEq, Repr

/-- basePath = pathname.substring(0, pathname.lastIndexOf(sep) + 1):
everything up to and including the last slash, empty when there is none. -/
def basePathOfList (l : List Char) : List Char :=
  ((l.reverse.dropWhile (fun c => c ≠ '/'))).reverse

/-- The base path computed from the response pathname (line 143). -/
def basePathOf (pathname : String) : String :=
  String.mk (basePathOfList pathname.data)

/-- Model of resolveUrl (lines 245-263): the 4-tier resolution rule. -/
def resolveUrl (target : String) (base : RespUrl) (basePath : String) : String :=
  if jsStartsWith target "http://" || jsStartsWith target "https://" then
    target
  else if jsStartsWith target "//" then
    base.protocol ++ target
  else if jsStartsWith target "/" then
    base.protocol ++ "//" ++ base.host ++ target
  else
    base.protocol ++ "//" ++ base.host ++ basePath ++ target

/-- The proxied URL built for an absolute URL (lines 155 and 165):
url.origin + url.pathname + "?url=" + encodeURIComponent(abs). -/
def proxiedUrlOf (req : ProxyReq) (abs : String) : String :=
  req.origin ++ req.pathname ++ "?url=" ++ encodeURIComponentStr abs

/-- The literal URI=" that opens the quoted attribute. -/
def uriLit : List Char := ['U', 'R', 'I', '=', '"']

/-- Try to match lit ++ (one or more non-quote characters) ++ a quote at
the head of the list; returns the capture and the rest after the closing
quote.  This is the anchored step of the regex lit([^"]+)". -/
def quotedCaptureHere (lit : List Char) (s : List Char) : Option (List Char × List Char) :=
  if listStartsWith s lit then
    let afterLit := s.drop lit.length
    let cap := afterLit.takeWhile (fun c => c ≠ '"')
    if cap.isEmpty then none
    else
      match afterLit.dropWhile (fun c => c ≠ '"') with
      | '"' :: rest => some (cap, rest)
      | _ => none
  else none

/-- First match of lit([^"]+)" in the list: the text before the match,
the capture, and the text after the closing quote. -/
def findQuotedCapture (lit : List Char) : List Char → Option (List Char × List Char × List Char)
  | [] => none
  | c :: cs =>
    match quotedCaptureHere lit (c :: cs) with
    | some (cap, post) => some ([], cap, post)
    | none =>
      match findQuotedCapture lit cs with
      | some (pre, cap, post) => some (c :: pre, cap, post)
      | none => none

/-- Global regex replacement of URI="([^"]+)" with URI="f(capture)"
(line 153 of the handler).  Fuel-based structural recursion; each match
consumes at least the five literal characters, the nonempty capture and
the closing quote, so fuel = list length suffices. -/
def uriReplAux (f : List Char → List Char) : Nat → List Char → List Char
  | 0, s => s
  | fuel + 1, s =>
    match findQuotedCapture uriLit s with
    | none => s
    | some (pre, cap, post) =>
      pre ++ uriLit ++ f cap ++ '"' :: uriReplAux f fuel post

/-- trimmedLine.replace(/URI="([^"]+)"/g, (m, uri) => URI="f(uri)"). -/
def uriReplaceAll (f : List Char → List Char) (s : List Char) : List Char :=
  uriReplAux f s.length s

/-- The skeleton of the successive URI="..." matches of a list: the
leading pieces and captures of each match in order, and the final tail
after the last match. -/
def uriDecompAux : Nat → List Char → List (List Char × List Char) × List Char
  | 0, s => ([], s)
  | fuel + 1, s =>
    match findQuotedCapture uriLit s with
    | none => ([], s)
    | some (pre, cap, post) =>
      let r := uriDecompAux fuel post
      ((pre, cap) :: r.1, r.2)

/-- Skeleton with enough fuel. -/
def uriDecomp (s : List Char) : List (List Char × List Char) × List Char :=
  uriDecompAux s.length s

/-- Reassemble a skeleton, mapping each capture through f. -/
def uriGlue (f : List Char → List Char) :
    List (List Char × List Char) × List Char → List Char
  | ([], tl) => tl
  | ((pre, cap) :: rest, tl) => pre ++ uriLit ++ f cap ++ '"' :: uriGlue f (rest, tl)

/-- One line of the playlist rewriting map (lines 146-168): trim, pass
through blank lines and tags (rewriting quoted URI attributes inside
#EXT tags), and wholly replace reference lines by proxied URLs. -/
def rewriteLine (req : ProxyReq) (base : RespUrl) (basePath : String) (line : String) : String :=
  let trimmedLine := jsTrim line
  if trimmedLine = "" || jsStartsWith trimmedLine "#EXT" then
    if jsIncludes trimmedLine "URI=\"" then
      String.mk (uriReplaceAll
        (fun uri => (proxiedUrlOf req (resolveUrl (String.mk uri) base basePath)).data)
        trimmedLine.data)
    else trimmedLine
  else if !(jsStartsWith trimmedLine "#") then
    proxiedUrlOf req (resolveUrl trimmedLine base basePath)
  else trimmedLine

/-- The whole playlist rewrite: text.split(newline).map(rewriteLine).join(newline)
(lines 146-169); basePath is derived from the response pathname (line 143). -/
def rewritePlaylist (req : ProxyReq) (base : RespUrl) (text : String) : String :=
  let basePath := basePathOf base.pathname
  jsJoinStr (Char.ofNat 10)
    ((jsSplit text (Char.ofNat 10)).map (rewriteLine req base basePath))

/-- Playlist classification of an upstream response (lines 132-137):
content-type markers or a playlist extension anywhere in the lower-cased
request URL. -/
def isPlaylistResponse (contentType targetUrl : String) : Bool :=
  jsIncludes contentType "mpegurl" ||
  jsIncludes contentType "m3u8" ||
  jsIncludes contentType "m3u" ||
  jsIncludes contentType "vnd.apple.mpegurl" ||
  jsIncludes (jsToLower targetUrl) ".m3u8" ||
  jsIncludes (jsToLower targetUrl) ".m3u"

/-- Spec-side notion for the classification claim: the URL ends in a
playlist extension (.m3u8 / .m3u), case-insensitively. -/
def specUrlEndsInPlaylistExt (url : String) : Bool :=
  jsEndsWith (jsToLower url) ".m3u8" || jsEndsWith (jsToLower url) ".m3u"

/-- Spec-side notion for the classification claim: the content-type
carries an HLS MIME marker. -/
def specHlsMimeMarker (contentType : String) : Bool :=
  jsIncludes contentType "mpegurl" || jsIncludes contentType "m3u8" ||
  jsIncludes contentType "m3u" || jsIncludes contentType "vnd.apple.mpegurl"

/-! ## JavaScript numbers

The claims about the timeline reconciler and the seek controller involve
Infinity and NaN but no floating-point rounding, so JS numbers are
modelled as rationals extended with the two infinities and NaN. -/

/-- Extended-rational model of a JS number. -/
inductive JSNum where
  | num (q : ℚ)
  | inf (pos : Bool)
  | nan
deriving DecidableEq, Repr

namespace JSNum

/-- Model of Number.isFinite / the global isFinite on numbers. -/
def finite : JSNum → Bool
  | num _ => true
  | _ => false

/-- Model of Number.isNaN on numbers. -/
def isNan : JSNum → Bool
  | nan => true
  | _ => false

/-- IEEE comparison a < b (false whenever NaN is involved). -/
def lt : JSNum → JSNum → Bool
  | nan, _ => false
  | _, nan => false
  | num a, num b => decide (a < b)
  | num _, inf p => p
  | inf p, num _ => !p
  | inf p, inf q => !p && q

/-- IEEE comparison a <= b (false whenever NaN is involved). -/
def le (a b : JSNum) : Bool :=
  match a, b with
  | nan, _ => false
  | _, nan => false
  | _, _ => !(lt b a)

/-- Negation. -/
def neg : JSNum → JSNum
  | num a => num (-a)
  | inf p => inf (!p)
  | nan => nan

/-- Addition. -/
def add : JSNum → JSNum → JSNum
  | nan, _ => nan
  | _, nan => nan
  | num a, num b => num (a + b)
  | inf p, num _ => inf p
  | num _, inf p => inf p
  | inf p, inf q => if p = q then inf p else nan

/-- Subtraction. -/
def sub (a b : JSNum) : JSNum := add a (neg b)

/-- Multiplication (0 * Infinity is NaN). -/
def mul : JSNum → JSNum → JSNum
  | nan, _ => nan
  | _, nan => nan
  | num a, num b => num (a * b)
  | num a, inf p => if a = 0 then nan else inf (decide (0 < a) == p)
  | inf p, num a => if a = 0 then nan else inf (decide (0 < a) == p)
  | inf p, inf q => inf (p == q)

/-- Division (x / 0 follows the sign of x; 0 / 0 is NaN; signed zero is
not modelled, which none of the embedded code paths distinguish). -/
def div : JSNum → JSNum → JSNum
  | nan, _ => nan
  | _, nan => nan
  | num a, num b =>
    if b = 0 then (if a = 0 then nan else inf (decide (0 < a))) else num (a / b)
  | num _, inf _ => num 0
  | inf p, num b => if b = 0 then inf p else inf (p == decide (0 < b))
  | inf _, inf _ => nan

/-- Model of Math.min on two arguments. -/
def min2 (a b : JSNum) : JSNum :=
  match a, b with
  | nan, _ => nan
  | _, nan => nan
  | _, _ => if lt a b then a else b

/-- Model of Math.max on two arguments. -/
def max2 (a b : JSNum) : JSNum :=
  match a, b with
  | nan, _ => nan
  | _, nan => nan
  | _, _ => if lt b a then a else b

end JSNum

/-! ## Timeline reconciler (getTimeStats, VideoPlayer.tsx lines 101-143) -/

/-- A seekable/seek range with a start and an end. -/
structure SeekRange where
  rangeStart : JSNum
  rangeEnd : JSNum
deriving DecidableEq, Repr

/-- The observable parts of the video element that getTimeStats reads. -/
structure VideoEl where
  currentTime : JSNum
  duration : JSNum
  seekable : List SeekRange
deriving DecidableEq, Repr

/-- The three backend kinds tracked by playerTypeRef. -/
inductive PlayerKind where
  | hls
  | shaka
  | native
deriving DecidableEq, Repr

/-- The refs getTimeStats consults: the active backend kind, whether a
shaka player instance is present, and what its seekRange() call yields
(none models a falsy result or a throw swallowed by the catch). -/
structure PlayerRefs where
  playerType : Option PlayerKind
  shakaPresent : Bool
  shakaSeekRange : Option SeekRange
deriving DecidableEq, Repr

/-- The record getTimeStats returns. -/
structure TimeStats where
  currentTime : JSNum
  duration : JSNum
  startTime : JSNum
  isLive : Bool
deriving DecidableEq, Repr

/-- Model of getTimeStats (lines 101-143): duration/live from the shaka
seek range when the shaka backend is active, else from the native
seekable range, else the raw duration; then the sanity clamps of lines
139-140. -/
def getTimeStats (refs : PlayerRefs) (video : Option VideoEl) : TimeStats :=
  match video with
  | none =>
    { currentTime := JSNum.num 0, duration := JSNum.num 0
      startTime := JSNum.num 0, isLive := false }
  | some v =>
    let currentTime := v.currentTime
    let duration0 := v.duration
    let isLive0 := !(JSNum.finite duration0)
    let branch : JSNum × JSNum × Bool :=
      if (refs.playerType == some PlayerKind.shaka) && refs.shakaPresent then
        match refs.shakaSeekRange with
        | some range =>
          if JSNum.finite range.rangeEnd && JSNum.lt (JSNum.num 0) range.rangeEnd then
            (range.rangeStart, range.rangeEnd, false)
          else (range.rangeStart, duration0, isLive0)
        | none => (JSNum.num 0, duration0, isLive0)
      else
        match v.seekable with
        | [] => (JSNum.num 0, duration0, isLive0)
        | first :: rest =>
          let e := (List.getLast (first :: rest) (by simp)).rangeEnd
          if JSNum.finite e && JSNum.lt (JSNum.num 0) e then
            (first.rangeStart, e, false)
          else (first.rangeStart, duration0, isLive0)
    let startTime1 := branch.1
    let duration1 := branch.2.1
    let isLive1 := branch.2.2
    let startTime2 :=
      if !(JSNum.finite startTime1) || JSNum.lt startTime1 (JSNum.num 0) then JSNum.num 0
      else startTime1
    let duration2 :=
      if !(JSNum.finite duration1) || JSNum.isNan duration1 then JSNum.num 0
      else duration1
    { currentTime := currentTime, duration := duration2
      startTime := startTime2, isLive := isLive1 }

/-! ## Seek target computation (calculateNewTime, VideoPlayer.tsx lines 453-462) -/

/-- Model of calculateNewTime: null when the refs are missing, the
duration is not a positive finite number, or the stream is live;
otherwise the pointer offset is clamped into the bar and mapped onto the
window [startTime, duration]. -/
def calculateNewTime (videoPresent barPresent : Bool)
    (duration startTime : JSNum) (isLive : Bool)
    (rectLeft rectWidth clientX : JSNum) : Option JSNum :=
  if !videoPresent || !barPresent || !(JSNum.finite duration) ||
      JSNum.le duration (JSNum.num 0) || isLive then
    none
  else
    let clickX := JSNum.max2 (JSNum.num 0)
      (JSNum.min2 (JSNum.sub clientX rectLeft) rectWidth)
    let percentage := JSNum.div clickX rectWidth
    let relativeDuration := JSNum.sub duration startTime
    some (JSNum.add (JSNum.mul percentage relativeDuration) startTime)

/-! ## HLS backend network-error retry (initHlsPlayer, VideoPlayer.tsx lines 235-246) -/

/-- What one fatal network-class error produces. -/
inductive RetryAction where
  | scheduleRetry (delayMs : Nat)
  | fatalStop
deriving DecidableEq, Repr

/-- maxRetries = 3 (line 235). -/
def hlsMaxRetries : Nat := 3

/-- One fatal NETWORK_ERROR event against the retry counter (lines
240-242): below the cap the counter is incremented first and the retry
is scheduled at 1000 * retryCount ms; at the cap the error is fatal and
onError fires once.  Returns (new counter, action, onError calls). -/
def networkErrorStep (retryCount : Nat) : Nat × RetryAction × Nat :=
  if retryCount < hlsMaxRetries then
    (retryCount + 1, RetryAction.scheduleRetry (1000 * (retryCount + 1)), 0)
  else
    (retryCount, RetryAction.fatalStop, 1)

/-- The actions and onError counts produced by a run of consecutive
fatal network-class errors. -/
def networkErrorTrace : Nat → Nat → List (RetryAction × Nat)
  | _, 0 => []
  | s, n + 1 =>
    let r := networkErrorStep s
    (r.2.1, r.2.2) :: networkErrorTrace r.1 n

/-! ## Double onError on a throwing backend initializer
(initializePlayer lines 191-226, initHlsPlayer lines 228-266) -/

/-- Synchronous outcome of initHlsPlayer: the pair (onError calls made
inside the function, whether it threw to the caller).  When hls.js is
supported the listeners are installed and nothing synchronous happens;
when only native HLS is supported the native path is taken; otherwise an
Error is thrown, and the local catch (line 265) calls onError and
rethrows. -/
def initHlsPlayerSync (hlsSupported canPlayNativeHls : Bool) : Nat × Bool :=
  if hlsSupported then (0, false)
  else if canPlayNativeHls then (0, false)
  else (1, true)

/-- Total onError calls observed by the session for one initialization:
initializePlayer catches a rethrown initializer error (lines 221-225)
and calls onError again. -/
def initializePlayerOnErrorCalls (hlsSupported canPlayNativeHls : Bool) : Nat :=
  let r := initHlsPlayerSync hlsSupported canPlayNativeHls
  if r.2 then r.1 + 1 else r.1

/-! ## Failover cursor (EventPlayer.tsx lines 60-69) -/

/-- Model of handleVideoError: with an event loaded and auto-retry on,
advance the cursor unless it is at the last index, in which case wrap to
0; otherwise leave it unchanged. -/
def handleVideoError (hasEvent autoRetry : Bool) (numLinks idx : Nat) : Nat :=
  if !hasEvent || !autoRetry then idx
  else if (idx : ℤ) < (numLinks : ℤ) - 1 then idx + 1
  else 0

/-- The active link index at each of n consecutive fatal errors,
starting from a given cursor. -/
def failoverIndexSeq (numLinks : Nat) : Nat → Nat → List Nat
  | _, 0 => []
  | idx, n + 1 => idx :: failoverIndexSeq numLinks (handleVideoError true true numLinks idx) n

/-! ## Catalog M3U parser (api/parse-m3u.ts lines 31-105) -/

/-- Scan a line position by position and return the first successful
anchored match, like an unanchored JS regex search. -/
def scanFirst (f : List Char → Option (List Char)) : List Char → Option (List Char)
  | [] => f []
  | c :: cs =>
    match f (c :: cs) with
    | some r => some r
    | none => scanFirst f cs

/-- The \s*(.+)$ tail of the group-title and display-name regexes: at
least one character must remain; greedy \s* backtracks one character
when everything left is whitespace. -/
def tailCapture (rest : List Char) : Option (List Char) :=
  match rest with
  | [] => none
  | _ :: _ =>
    let rem := rest.dropWhile jsIsWhite
    if rem.isEmpty then
      match rest.getLast? with
      | some c => some [c]
      | none => none
    else some rem

/-- Anchored match of group-title="[^"]*",\s*(.+)$ (line 46). -/
def groupTitleHere (s : List Char) : Option (List Char) :=
  let lit := String.data "group-title=\""
  if listStartsWith s lit then
    let afterLit := s.drop lit.length
    match afterLit.dropWhile (fun c => c ≠ '"') with
    | '"' :: ',' :: rest => tailCapture rest
    | _ => none
  else none

/-- Anchored match of ,\s*([^,]+)$ (line 50): a comma whose suffix is
comma-free and nonempty. -/
def lastCommaHere (s : List Char) : Option (List Char) :=
  match s with
  | ',' :: rest =>
    if rest.any (fun c => c = ',') then none else tailCapture rest
  | _ => none

/-- Anchored match of (?:Referer|referer)=(.+) (line 76). -/
def refererHere (s : List Char) : Option (List Char) :=
  let litU := String.data "Referer="
  let litL := String.data "referer="
  if listStartsWith s litU then
    let rest := s.drop litU.length
    if rest.isEmpty then none else some rest
  else if listStartsWith s litL then
    let rest := s.drop litL.length
    if rest.isEmpty then none else some rest
  else none

/-- The display name extracted from an #EXTINF line (lines 40-55):
tvg-name, then the group-title tail, then the text after the last
comma, then the fallback. -/
def extractChannelName (line : String) : String :=
  match findQuotedCapture (String.data "tvg-name=\"") line.data with
  | some (_, cap, _) => jsTrim (String.mk cap)
  | none =>
    match scanFirst groupTitleHere line.data with
    | some cap => jsTrim (String.mk cap)
    | none =>
      match scanFirst lastCommaHere line.data with
      | some cap => jsTrim (String.mk cap)
      | none => "Unknown Channel"

/-- The logo extracted from an #EXTINF line (lines 57-58). -/
def extractLogo (line : String) : String :=
  match findQuotedCapture (String.data "tvg-logo=\"") line.data with
  | some (_, cap, _) => String.mk cap
  | none => "/channel-placeholder.svg"

/-- name.replace(/[^a-zA-Z0-9]/g, underscore).toLowerCase() (line 83). -/
def sanitizeName (s : String) : String :=
  jsToLower (String.mk (s.data.map (fun c => if isAsciiAlnum c then c else '_')))

/-- Stream URL and referer extracted from a reference line (lines 67-81). -/
def parseStreamLine (line : String) : String × String :=
  if jsIncludes line "|Referer=" || jsIncludes line "|referer=" then
    let parts := jsSplit line '|'
    let streamUrl := jsTrim (parts.headD "")
    let referer :=
      match parts.get? 1 with
      | some refererPart =>
        match scanFirst refererHere refererPart.data with
        | some cap => jsTrim (String.mk cap)
        | none => ""
      | none => ""
    (streamUrl, referer)
  else (line, "")

/-- One emitted channel record. -/
structure Channel where
  id : String
  name : String
  logoUrl : String
  streamUrl : String
  categoryId : String
  categoryName : String
deriving DecidableEq, Repr

/-- The parser loop (lines 36-102): an #EXTINF line loads the pending
channel; a non-comment line with a pending named channel emits a record
whose id is categoryId_sanitizedName_position. -/
def parseM3ULoop (categoryId categoryName : String) :
    List String → Option (String × String) → List Channel → List Channel
  | [], _, channels => channels
  | line :: rest, currentChannel, channels =>
    if jsStartsWith line "#EXTINF:" then
      parseM3ULoop categoryId categoryName rest
        (some (extractChannelName line, extractLogo line)) channels
    else
      match currentChannel with
      | some nameLogo =>
        if line ≠ "" && !(jsStartsWith line "#") && nameLogo.1 ≠ "" then
          let sr := parseStreamLine line
          let cleanChannelName := sanitizeName nameLogo.1
          let channelId :=
            categoryId ++ "_" ++ cleanChannelName ++ "_" ++ toString channels.length
          let finalStreamUrl :=
            if sr.2 ≠ "" then sr.1 ++ "?__referer=" ++ encodeURIComponentStr sr.2
            else sr.1
          let channel : Channel :=
            { id := channelId, name := nameLogo.1
              logoUrl := if nameLogo.2 ≠ "" then nameLogo.2 else "/channel-placeholder.svg"
              streamUrl := finalStreamUrl
              categoryId := categoryId, categoryName := categoryName }
          parseM3ULoop categoryId categoryName rest none (channels ++ [channel])
        else parseM3ULoop categoryId categoryName rest (some nameLogo) channels
      | none => parseM3ULoop categoryId categoryName rest none channels

/-- Model of parseM3U (lines 31-105). -/
def parseM3U (m3uContent categoryId categoryName : String) : List Channel :=
  let lines := ((jsSplit m3uContent (Char.ofNat 10)).map jsTrim).filter (fun l => l ≠ "")
  parseM3ULoop categoryId categoryName lines none []

/-! ## Proxy URL helpers (src/lib/urlEncryption.ts) -/

/-- Model of needsProxying (lines 7-26). -/
def needsProxying (url : String) : Bool :=
  if url = "" then false
  else
    let urlLower := jsToLower url
    if jsIncludes urlLower "/api/m3u8-proxy" then false
    else
      jsIncludes urlLower ".m3u8" || jsIncludes urlLower ".m3u" ||
      jsIncludes urlLower "/hls/" || jsIncludes urlLower "m3u8" ||
      jsIncludes urlLower ".ts" || jsIncludes urlLower "manifest"

/-- Everything after the first occurrence of a character. -/
def afterFirstChar (sep : Char) : List Char → Option (List Char)
  | [] => none
  | c :: cs => if c = sep then some cs else afterFirstChar sep cs

/-- First query parameter with the given (plain) name, undecoded value. -/
def paramValue (name : List Char) : List (List Char) → Option (List Char)
  | [] => none
  | p :: ps =>
    if p.takeWhile (fun c => c ≠ '=') = name then
      match p.dropWhile (fun c => c ≠ '=') with
      | _ :: v => some v
      | [] => some []
    else paramValue name ps

/-- Model of new URL(s, base).searchParams.get("url"): the url parameter
of the query string, decoded the way URLSearchParams decodes values. -/
def getUrlParam (s : String) : Option String :=
  match afterFirstChar '?' s.data with
  | none => none
  | some q =>
    let query := q.takeWhile (fun c => c ≠ '#')
    match paramValue (String.data "url") (splitOnChar '&' query) with
    | some v => some (queryValueDecode (String.mk v))
    | none => none

/-- Model of getProxiedUrl (lines 31-64). -/
def getProxiedUrl (originalUrl : String) : String :=
  let fallthroughResult :=
    if needsProxying originalUrl then
      "/api/m3u8-proxy" ++ "?url=" ++ encodeURIComponentStr originalUrl
    else originalUrl
  if originalUrl = "" then originalUrl
  else if jsIncludes originalUrl "/api/m3u8-proxy?url=" then
    match getUrlParam originalUrl with
    | some encodedUrl => if encodedUrl ≠ "" then originalUrl else fallthroughResult
    | none => fallthroughResult
  else fallthroughResult

/-- Model of getOriginalUrl (lines 69-82); none models the null returns,
including the catch around a throwing decodeURIComponent. -/
def getOriginalUrl (proxiedUrl : String) : Option String :=
  if proxiedUrl = "" || !(jsIncludes proxiedUrl "/api/m3u8-proxy?url=") then none
  else
    match getUrlParam proxiedUrl with
    | some originalUrl =>
      if originalUrl ≠ "" then decodeURIComponentStr originalUrl else none
    | none => none

/-- No raw newline in the string (a URL origin or pathname can never
contain one). -/
def nlFree (s : String) : Bool := !(s.data.any (fun c => c = Char.ofNat 10))

/-- Example proxy request URL used to instantiate theorems. -/
def exReq : ProxyReq :=
  { origin := "https://proxy.example", pathname := "/api/m3u8-proxy" }

/-- Example player refs used to instantiate theorems: an active shaka
backend whose seek range is [60, 3660]. -/
def exRefs : PlayerRefs :=
  { playerType := some PlayerKind.shaka, shakaPresent := true,
    shakaSeekRange := some ⟨JSNum.num 60, JSNum.num 3660⟩ }

/-- Example video element used to instantiate theorems: an infinite raw
duration, as a live stream reports. -/
def exVideo : VideoEl :=
  { currentTime := JSNum.num 100, duration := JSNum.inf true, seekable := [] }

/-- Example upstream response URL used to instantiate theorems. -/
def exBase : RespUrl :=
  { protocol := "https:", host := "cdn.example.com", pathname := "/live/stream.m3u8" }

/-! ## Supporting lemmas -/

theorem splitOnChar_never_nil (sep : Char) (l : List Char) : splitOnChar sep l ≠ [] := by
  cases l with
  | nil => simp [splitOnChar]
  | cons c cs =>
    simp only [splitOnChar]
    by_cases h : c = sep
    · simp [h]
    · simp only [if_neg h]
      cases splitOnChar sep cs <;> simp

/-- Splitting a join of separator-free chunks recovers the chunks. -/
theorem splitOnChar_joinWith (sep : Char) (ls : List (List Char))
    (hne : ls ≠ []) (hfree : ∀ l ∈ ls, sep ∉ l) :
    splitOnChar sep (joinWith sep ls) = ls := by
  induction ls with
  | nil => exact absurd rfl hne
  | cons h t ih =>
    have hh : sep ∉ h := hfree h (by simp)
    cases t with
    | nil =>
      simp only [joinWith]
      clear ih hne hfree
      induction h with
      | nil => simp [splitOnChar]
      | cons c cs ihc =>
        have hc : c ≠ sep := by rintro rfl; simp at hh
        have hcs : sep ∉ cs := by intro hmem; exact hh (List.mem_cons_of_mem _ hmem)
        simp only [splitOnChar, if_neg hc, ihc hcs]
    | cons t2 ts =>
      have htail : splitOnChar sep (joinWith sep (t2 :: ts)) = t2 :: ts :=
        ih (by simp) (fun l hl => hfree l (List.mem_cons_of_mem _ hl))
      simp only [joinWith]
      clear ih hne hfree
      induction h with
      | nil => simp [splitOnChar, htail]
      | cons c cs ihc =>
        have hc : c ≠ sep := by rintro rfl; simp at hh
        have hcs : sep ∉ cs := by intro hmem; exact hh (List.mem_cons_of_mem _ hmem)
        simp only [List.cons_append, splitOnChar, if_neg hc]
        rw [show cs.append (sep :: joinWith sep (t2 :: ts))
            = cs ++ sep :: joinWith sep (t2 :: ts) from rfl, ihc hcs]

/-- A successful listStartsWith splits the list. -/
theorem listStartsWith_decomp :
    ∀ (a b : List Char), listStartsWith a b = true → a = b ++ a.drop b.length := by
  intro a
  induction a with
  | nil =>
    intro b hb
    cases b with
    | nil => simp
    | cons x xs => simp [listStartsWith] at hb
  | cons x xs iha =>
    intro b hb
    cases b with
    | nil => simp
    | cons y ys =>
      simp only [listStartsWith, Bool.and_eq_true, decide_eq_true_eq] at hb
      obtain ⟨rfl, hb2⟩ := hb
      simpa using iha ys hb2

/-- The head of a dropWhile residue fails the predicate. -/
theorem dropWhile_head_not (p : Char → Bool) :
    ∀ (l qrest : List Char) (q : Char), l.dropWhile p = q :: qrest → p q = false := by
  intro l
  induction l with
  | nil => intro qrest q h; simp [List.dropWhile] at h
  | cons c cs ih =>
    intro qrest q h
    simp only [List.dropWhile] at h
    cases hp : p c with
    | true => rw [hp] at h; exact ih qrest q h
    | false =>
      rw [hp] at h
      simp only [List.cons.injEq] at h
      obtain ⟨rfl, _⟩ := h
      exact hp

/-- An anchored match decomposes the list. -/
theorem quotedCaptureHere_eq (lit s cap post : List Char)
    (h : quotedCaptureHere lit s = some (cap, post)) :
    s = lit ++ cap ++ '"' :: post := by
  unfold quotedCaptureHere at h
  by_cases hstart : listStartsWith s lit
  · rw [if_pos hstart] at h
    simp only at h
    by_cases hcap : ((s.drop lit.length).takeWhile (fun c => c ≠ '"')).isEmpty
    · rw [if_pos hcap] at h; simp at h
    · rw [if_neg hcap] at h
      cases hrest : (s.drop lit.length).dropWhile (fun c => c ≠ '"') with
      | nil => rw [hrest] at h; simp at h
      | cons q qrest =>
        rw [hrest] at h
        by_cases hqq : q = '"'
        · subst hqq
          simp only [Option.some.injEq, Prod.mk.injEq] at h
          obtain ⟨hcapEq, hpostEq⟩ := h
          have hdec := listStartsWith_decomp s lit hstart
          have hsplit := List.takeWhile_append_dropWhile
            (p := fun c => c ≠ '"') (l := s.drop lit.length)
          rw [hrest] at hsplit
          rw [← hcapEq, ← hpostEq]
          conv_lhs => rw [hdec, ← hsplit]
          simp
        · exfalso
          have hdw := dropWhile_head_not (fun c => c ≠ '"') (s.drop lit.length) qrest q hrest
          simp only [decide_eq_true_eq, decide_eq_false_iff_not, not_not] at hdw
          exact hqq hdw
  · rw [if_neg hstart] at h; simp at h

/-- A found match decomposes the list. -/
theorem findQuotedCapture_eq (lit : List Char) :
    ∀ (s pre cap post : List Char),
    findQuotedCapture lit s = some (pre, cap, post) →
    s = pre ++ lit ++ cap ++ '"' :: post := by
  intro s
  induction s with
  | nil => intro pre cap post h; simp [findQuotedCapture] at h
  | cons c cs ih =>
    intro pre cap post h
    simp only [findQuotedCapture] at h
    cases hq : quotedCaptureHere lit (c :: cs) with
    | some r =>
      rw [hq] at h
      obtain ⟨cap0, post0⟩ := r
      simp only [Option.some.injEq, Prod.mk.injEq] at h
      obtain ⟨h1, h2, h3⟩ := h
      rw [← h1, ← h2, ← h3]
      simpa using quotedCaptureHere_eq lit (c :: cs) cap0 post0 hq
    | none =>
      rw [hq] at h
      cases hf : findQuotedCapture lit cs with
      | some r =>
        obtain ⟨pre0, cap0, post0⟩ := r
        rw [hf] at h
        simp only [Option.some.injEq, Prod.mk.injEq] at h
        obtain ⟨h1, h2, h3⟩ := h
        rw [← h1, ← h2, ← h3]
        have := ih pre0 cap0 post0 hf
        simp [this]
      | none => rw [hf] at h; simp at h

/-- Gluing the skeleton with the identity recovers the input, and gluing
it with f gives the global replacement: the replacement changes only the
captured URI values. -/
theorem uriReplAux_glue (f : List Char → List Char) :
    ∀ (fuel : Nat) (s : List Char),
    uriGlue (fun c => c) (uriDecompAux fuel s) = s ∧
    uriGlue f (uriDecompAux fuel s) = uriReplAux f fuel s := by
  intro fuel
  induction fuel with
  | zero => intro s; simp [uriDecompAux, uriGlue, uriReplAux]
  | succ n ih =>
    intro s
    simp only [uriDecompAux, uriReplAux]
    cases hf : findQuotedCapture uriLit s with
    | none => simp [uriGlue]
    | some r =>
      obtain ⟨pre, cap, post⟩ := r
      have hdec := findQuotedCapture_eq uriLit s pre cap post hf
      have hr := ih post
      simp only [uriGlue]
      constructor
      · rw [hr.1]
        simp [hdec]
      · rw [hr.2]

/-- Characterisation used by the invariant claim: the input and the
rewritten tag line share one skeleton; corresponding pieces outside the
quoted URI values are identical. -/
theorem uriReplaceAll_skeleton (f : List Char → List Char) (s : List Char) :
    uriGlue (fun c => c) (uriDecomp s) = s ∧
    uriGlue f (uriDecomp s) = uriReplaceAll f s := by
  exact uriReplAux_glue f s.length s

theorem char_toNat_lt (c : Char) : c.toNat < 1114112 := by
  rcases c.valid with h | ⟨h1, h2⟩
  · have : c.toNat < 55296 := h
    omega
  · have : c.toNat < 1114112 := h2
    omega

theorem listStartsWith_iff : ∀ (x p : List Char), listStartsWith x p = true ↔ p <+: x := by
  intro x p
  induction p generalizing x with
  | nil =>
    cases x <;> simp [listStartsWith]
  | cons ph pt ih =>
    cases x with
    | nil => simp [listStartsWith]
    | cons xh xt =>
      simp only [listStartsWith, Bool.and_eq_true, decide_eq_true_eq, ih,
        List.cons_prefix_cons]
      constructor
      · rintro ⟨rfl, hp⟩; exact ⟨rfl, hp⟩
      · rintro ⟨rfl, hp⟩; exact ⟨rfl, hp⟩

theorem listIncludes_iff (p : List Char) : ∀ (s : List Char),
    listIncludes s p = true ↔ p <:+: s := by
  intro s
  induction s with
  | nil =>
    simp [listIncludes, listStartsWith_iff]
  | cons c cs ih =>
    simp only [listIncludes, Bool.or_eq_true, listStartsWith_iff, ih,
      List.infix_cons_iff]

theorem listIncludes_trans {s b a : List Char}
    (h1 : listIncludes s b = true) (h2 : listIncludes b a = true) :
    listIncludes s a = true := by
  rw [listIncludes_iff] at h1 h2 ⊢
  exact h2.trans h1

theorem splitOnChar_pieces (sep : Char) :
    ∀ (s l : List Char), l ∈ splitOnChar sep s → sep ∉ l := by
  intro s
  induction s with
  | nil =>
    intro l hl
    simp only [splitOnChar, List.mem_singleton] at hl
    simp [hl]
  | cons c cs ih =>
    intro l hl
    simp only [splitOnChar] at hl
    by_cases hc : c = sep
    · rw [if_pos hc] at hl
      rcases List.mem_cons.mp hl with rfl | hl2
      · simp
      · exact ih l hl2
    · rw [if_neg hc] at hl
      cases hs : splitOnChar sep cs with
      | nil => exact absurd hs (splitOnChar_never_nil sep cs)
      | cons h t =>
        rw [hs] at hl
        rcases List.mem_cons.mp hl with rfl | hl2
        · intro hmem
          rcases List.mem_cons.mp hmem with rfl | hmem2
          · exact hc rfl
          · exact ih h (hs ▸ List.mem_cons_self h t) hmem2
        · exact ih l (hs ▸ List.mem_cons_of_mem h hl2)

theorem utf8Bytes_lt (c : Char) : ∀ b ∈ utf8Bytes c, b < 256 := by
  intro b hb
  have hc := char_toNat_lt c
  dsimp only [utf8Bytes] at hb
  split_ifs at hb <;> simp only [List.mem_cons, List.mem_singleton,
    List.not_mem_nil, or_false] at hb <;>
    [skip; rcases hb with rfl | rfl; rcases hb with rfl | rfl | rfl;
     rcases hb with rfl | rfl | rfl | rfl] <;> omega

theorem newline_not_in_encode (l : List Char) :
    Char.ofNat 10 ∉ encodeURIComponentList l := by
  intro hmem
  unfold encodeURIComponentList at hmem
  rw [List.mem_flatten] at hmem
  obtain ⟨piece, hpiece, hin⟩ := hmem
  rw [List.mem_map] at hpiece
  obtain ⟨c, _, hc⟩ := hpiece
  by_cases hu : uriUnescaped c
  · rw [if_pos hu] at hc
    rw [← hc] at hin
    rw [List.mem_singleton] at hin
    rw [← hin] at hu
    exact absurd hu (by decide)
  · rw [if_neg hu] at hc
    rw [← hc] at hin
    rw [List.mem_flatten] at hin
    obtain ⟨pp, hpp, hin2⟩ := hin
    rw [List.mem_map] at hpp
    obtain ⟨byte, hbyte, hb⟩ := hpp
    have hlt : byte < 256 := utf8Bytes_lt c byte hbyte
    rw [← hb] at hin2
    have h16a : byte / 16 < 16 := by omega
    have h16b : byte % 16 < 16 := by omega
    have hhex : ∀ n < 16, hexDigitUpper n ≠ Char.ofNat 10 := by decide
    unfold pctByte at hin2
    rcases List.mem_cons.mp hin2 with h1 | h1
    · exact absurd h1.symm (by decide)
    · rcases List.mem_cons.mp h1 with h2 | h2
      · exact hhex (byte / 16) h16a h2.symm
      · rw [List.mem_singleton] at h2
        exact hhex (byte % 16) h16b h2.symm

theorem nlFree_iff (s : String) : nlFree s = true ↔ Char.ofNat 10 ∉ s.data := by
  simp only [nlFree, Bool.not_eq_true', List.any_eq_false, decide_eq_false_iff_not]
  constructor
  · intro h hm
    exact h _ hm rfl
  · intro h x hx hv
    rw [decide_eq_true_eq] at hv
    subst hv
    exact h hx

theorem jsTrimList_subset {c : Char} {l : List Char} (h : c ∈ jsTrimList l) : c ∈ l := by
  unfold jsTrimList at h
  rw [List.mem_reverse] at h
  have h2 := (List.dropWhile_sublist jsIsWhite (l := (l.dropWhile jsIsWhite).reverse)).mem h
  rw [List.mem_reverse] at h2
  exact (List.dropWhile_sublist jsIsWhite (l := l)).mem h2

theorem proxiedUrlOf_nlFree (req : ProxyReq) (abs : String)
    (h1 : nlFree req.origin = true) (h2 : nlFree req.pathname = true) :
    Char.ofNat 10 ∉ (proxiedUrlOf req abs).data := by
  intro hmem
  unfold proxiedUrlOf at hmem
  simp only [String.data_append, List.mem_append] at hmem
  rcases hmem with ((hm | hm) | hm) | hm
  · exact (nlFree_iff req.origin).mp h1 hm
  · exact (nlFree_iff req.pathname).mp h2 hm
  · revert hm; decide
  · exact newline_not_in_encode abs.data hm

theorem uriReplAux_not_mem (f : List Char → List Char) (a : Char)
    (hf : ∀ cap, a ∉ f cap) (hlit : a ∉ uriLit) (hq : a ≠ '"') :
    ∀ (fuel : Nat) (s : List Char), a ∉ s → a ∉ uriReplAux f fuel s := by
  intro fuel
  induction fuel with
  | zero => intro s hs; simpa [uriReplAux] using hs
  | succ n ih =>
    intro s hs
    simp only [uriReplAux]
    cases hm : findQuotedCapture uriLit s with
    | none => exact hs
    | some r =>
      obtain ⟨pre, cap, post⟩ := r
      have hdec := findQuotedCapture_eq uriLit s pre cap post hm
      rw [hdec] at hs
      simp only [List.append_assoc, List.mem_append, List.mem_cons] at hs
      push_neg at hs
      intro hmem
      simp only [List.append_assoc, List.mem_append, List.mem_cons] at hmem
      rcases hmem with hm1 | hm2 | hm3 | hm4 | hm5
      · exact hs.1 hm1
      · exact hlit hm2
      · exact hf cap hm3
      · exact hq hm4
      · exact ih post (fun hp => hs.2.2.2.2 hp) hm5

theorem rewriteLine_nlFree (req : ProxyReq) (base : RespUrl) (basePath : String)
    (line : String) (h1 : nlFree req.origin = true) (h2 : nlFree req.pathname = true)
    (hline : Char.ofNat 10 ∉ line.data) :
    Char.ofNat 10 ∉ (rewriteLine req base basePath line).data := by
  have htrim : Char.ofNat 10 ∉ (jsTrim line).data :=
    fun hm => hline (jsTrimList_subset hm)
  unfold rewriteLine
  by_cases hc1 : (jsTrim line = "" || jsStartsWith (jsTrim line) "#EXT") = true
  · rw [if_pos hc1]
    by_cases hc2 : jsIncludes (jsTrim line) "URI=\"" = true
    · rw [if_pos hc2]
      exact uriReplAux_not_mem _ (Char.ofNat 10)
        (fun cap => proxiedUrlOf_nlFree req _ h1 h2)
        (by decide) (by decide) _ _ htrim
    · rw [if_neg hc2]
      exact htrim
  · rw [if_neg hc1]
    by_cases hc3 : (!jsStartsWith (jsTrim line) "#") = true
    · rw [if_pos hc3]
      exact proxiedUrlOf_nlFree req _ h1 h2
    · rw [if_neg hc3]
      exact htrim

theorem rewritePlaylist_lines (req : ProxyReq) (base : RespUrl) (text : String)
    (h1 : nlFree req.origin = true) (h2 : nlFree req.pathname = true) :
    jsSplit (rewritePlaylist req base text) (Char.ofNat 10)
      = (jsSplit text (Char.ofNat 10)).map (rewriteLine req base (basePathOf base.pathname)) := by
  have hF : ∀ (ps : List (List Char)),
      List.map String.data
        (List.map (rewriteLine req base (basePathOf base.pathname)) (List.map String.mk ps))
      = List.map
          (fun l => (rewriteLine req base (basePathOf base.pathname) (String.mk l)).data) ps := by
    intro ps
    simp only [List.map_map]
    rfl
  have hsp : splitOnChar (Char.ofNat 10)
      (joinWith (Char.ofNat 10)
        (List.map (fun l => (rewriteLine req base (basePathOf base.pathname) (String.mk l)).data)
          (splitOnChar (Char.ofNat 10) text.data)))
      = List.map (fun l => (rewriteLine req base (basePathOf base.pathname) (String.mk l)).data)
          (splitOnChar (Char.ofNat 10) text.data) := by
    apply splitOnChar_joinWith
    · simpa using splitOnChar_never_nil (Char.ofNat 10) text.data
    · intro l hl
      rw [List.mem_map] at hl
      obtain ⟨piece, hpiece, hback⟩ := hl
      rw [← hback]
      exact rewriteLine_nlFree req base (basePathOf base.pathname) (String.mk piece) h1 h2
        (splitOnChar_pieces (Char.ofNat 10) text.data piece hpiece)
  show List.map String.mk
      (splitOnChar (Char.ofNat 10)
        (joinWith (Char.ofNat 10)
          (List.map String.data
            (List.map (rewriteLine req base (basePathOf base.pathname))
              (List.map String.mk (splitOnChar (Char.ofNat 10) text.data))))))
    = List.map (rewriteLine req base (basePathOf base.pathname))
        (List.map String.mk (splitOnChar (Char.ofNat 10) text.data))
  rw [hF, hsp]
  simp only [List.map_map]
  rfl

theorem jsnum_sub_num (a b : ℚ) :
    JSNum.sub (JSNum.num a) (JSNum.num b) = JSNum.num (a - b) := by
  simp [JSNum.sub, JSNum.add, JSNum.neg, sub_eq_add_neg]

theorem jsnum_add_num (a b : ℚ) :
    JSNum.add (JSNum.num a) (JSNum.num b) = JSNum.num (a + b) := rfl

theorem jsnum_mul_num (a b : ℚ) :
    JSNum.mul (JSNum.num a) (JSNum.num b) = JSNum.num (a * b) := rfl

theorem jsnum_min2_num (a b : ℚ) :
    JSNum.min2 (JSNum.num a) (JSNum.num b) = JSNum.num (min a b) := by
  simp only [JSNum.min2, JSNum.lt]
  split_ifs with hc
  · rw [decide_eq_true_eq] at hc
    rw [min_eq_left (le_of_lt hc)]
  · rw [decide_eq_true_eq] at hc
    rw [min_eq_right (not_lt.mp hc)]

theorem jsnum_max2_num (a b : ℚ) :
    JSNum.max2 (JSNum.num a) (JSNum.num b) = JSNum.num (max a b) := by
  simp only [JSNum.max2, JSNum.lt]
  split_ifs with hc
  · rw [decide_eq_true_eq] at hc
    rw [max_eq_left (le_of_lt hc)]
  · rw [decide_eq_true_eq] at hc
    rw [max_eq_right (not_lt.mp hc)]

theorem jsnum_div_num (a b : ℚ) (hb : b ≠ 0) :
    JSNum.div (JSNum.num a) (JSNum.num b) = JSNum.num (a / b) := by
  simp only [JSNum.div]
  rw [if_neg hb]

theorem jsnum_le_num_false (a b : ℚ) (h : b < a) :
    JSNum.le (JSNum.num a) (JSNum.num b) = false := by
  simp only [JSNum.le, JSNum.lt]
  simp [h]

theorem jsStartsWith_mono {s p q : String}
    (hpq : listStartsWith p.data q.data = true) (h : jsStartsWith s p = true) :
    jsStartsWith s q = true := by
  unfold jsStartsWith at h ⊢
  rw [listStartsWith_iff] at hpq h ⊢
  exact hpq.trans h

theorem rewriteLine_reference (req : ProxyReq) (base : RespUrl) (basePath : String)
    (line : String) (hne : jsTrim line ≠ "")
    (hns : jsStartsWith (jsTrim line) "#" = false) :
    rewriteLine req base basePath line
      = proxiedUrlOf req (resolveUrl (jsTrim line) base basePath) := by
  have hext : jsStartsWith (jsTrim line) "#EXT" = false := by
    cases hx : jsStartsWith (jsTrim line) "#EXT" with
    | false => rfl
    | true =>
      exact absurd (jsStartsWith_mono (p := "#EXT") (q := "#") (by decide) hx)
        (by simp [hns])
  unfold rewriteLine
  rw [if_neg (by simp [hne, hext]), if_pos (by simp [hns])]

theorem rewriteLine_passthrough (req : ProxyReq) (base : RespUrl) (basePath : String)
    (line : String)
    (hcase : jsTrim line = "" ∨
      (jsStartsWith (jsTrim line) "#" = true ∧ jsIncludes (jsTrim line) "URI=\"" = false)) :
    rewriteLine req base basePath line = jsTrim line := by
  unfold rewriteLine
  rcases hcase with hblank | ⟨hhash, huri⟩
  · rw [if_pos (by simp [hblank])]
    rw [if_neg (by simp [hblank, jsIncludes, listIncludes, listStartsWith])]
  · cases hext : jsStartsWith (jsTrim line) "#EXT" with
    | true =>
      rw [if_pos (by simp [hext]), if_neg (by simp [huri])]
    | false =>
      have hne : jsTrim line ≠ "" := by
        intro habs
        rw [habs] at hhash
        exact absurd hhash (by decide)
      rw [if_neg (by simp [hne, hext]), if_neg (by simp [hhash])]

theorem parseM3ULoop_id_inv (categoryId categoryName : String) :
    ∀ (lines : List String) (cur : Option (String × String)) (channels : List Channel),
    (∀ (j : Nat) (hj : j < channels.length),
      channels[j].id
        = categoryId ++ "_" ++ sanitizeName (channels[j].name) ++ "_" ++ toString j) →
    ∀ (j : Nat) (hj : j < (parseM3ULoop categoryId categoryName lines cur channels).length),
      (parseM3ULoop categoryId categoryName lines cur channels)[j].id
        = categoryId ++ "_" ++
          sanitizeName ((parseM3ULoop categoryId categoryName lines cur channels)[j].name) ++
          "_" ++ toString j := by
  intro lines
  induction lines with
  | nil =>
    intro cur channels hinv j hj
    simp only [parseM3ULoop] at hj ⊢
    exact hinv j hj
  | cons line rest ih =>
    intro cur channels hinv j hj
    cases h1 : jsStartsWith line "#EXTINF:" with
    | true =>
      simp only [parseM3ULoop, h1, if_true] at hj ⊢
      exact ih _ _ hinv j hj
    | false =>
      cases cur with
      | none =>
        simp only [parseM3ULoop, h1, Bool.false_eq_true, if_false] at hj ⊢
        exact ih _ _ hinv j hj
      | some nameLogo =>
        by_cases h2 : (line ≠ "" && !(jsStartsWith line "#") && nameLogo.1 ≠ "") = true
        · simp only [parseM3ULoop, h1, Bool.false_eq_true, if_false, h2, if_true] at hj ⊢
          apply ih _ _ ?_ j hj
          intro j2 hj2
          rcases Nat.lt_or_ge j2 channels.length with hlt | hge
          · rw [List.getElem_append_left hlt]
            exact hinv j2 hlt
          · have hjeq : j2 = channels.length := by
              rw [List.length_append, List.length_singleton] at hj2
              omega
            subst hjeq
            rw [List.getElem_append_right (Nat.le_refl _)]
            simp
        · simp only [parseM3ULoop, h1, Bool.false_eq_true, if_false, h2] at hj ⊢
          exact ih _ _ hinv j hj

/-! ## The claims -/

/-- Claim C3: for a run of fatal network-class errors against the HLS
backend, the attempt counter starts at 0 and increments per error; each
of the first three errors schedules a retry with linear backoff of
attempt x 1000 ms (1000, 2000, 3000), and the fourth consecutive error
schedules no retry and produces exactly one fatal onError callback. -/
theorem c3_network_retry_backoff (s : Nat) :
    (s < 3 → networkErrorStep s = (s + 1, RetryAction.scheduleRetry (1000 * (s + 1)), 0)) ∧
    (3 ≤ s → networkErrorStep s = (s, RetryAction.fatalStop, 1)) ∧
    networkErrorTrace 0 4 =
      [(RetryAction.scheduleRetry 1000, 0), (RetryAction.scheduleRetry 2000, 0),
       (RetryAction.scheduleRetry 3000, 0), (RetryAction.fatalStop, 1)] ∧
    (List.map Prod.snd (networkErrorTrace 0 4)).sum = 1 := by
  refine ⟨fun h => ?_, fun h => ?_, by decide, by decide⟩
  · unfold networkErrorStep hlsMaxRetries
    rw [if_pos h]
  · unfold networkErrorStep hlsMaxRetries
    rw [if_neg (Nat.not_lt.mpr h)]

/-- Witness for C3 at concrete attempt counts 2 and 3. -/
theorem c3_network_retry_backoff_witness :
    (2 < 3 ∧ networkErrorStep 2 = (3, RetryAction.scheduleRetry 3000, 0)) ∧
    (3 ≤ 3 ∧ networkErrorStep 3 = (3, RetryAction.fatalStop, 1)) :=
  ⟨⟨by decide, by simpa using (c3_network_retry_backoff 2).1 (by decide)⟩,
   ⟨by decide, (c3_network_retry_backoff 3).2.1 (by decide)⟩⟩

/-- Claim C4 (code bug): when the HLS initializer throws synchronously
(hls.js unsupported and no native HLS), its local catch invokes onError
and rethrows, and the caller initializePlayer catch invokes onError
again: the session observes two onError calls for one fatal failure,
not exactly one. -/
theorem c4_onerror_called_twice :
    initHlsPlayerSync false false = (1, true) ∧
    initializePlayerOnErrorCalls false false = 2 := by
  exact ⟨rfl, rfl⟩

/-- Claim C7: on a fatal session error the failover cursor is unchanged
when auto-retry is off, advances by one when not at the last index, and
wraps to 0 otherwise; with 3 candidates the active index at four
consecutive fatal errors is 0, 1, 2, 0. -/
theorem c7_failover_cursor (hasEvent autoRetry : Bool) (numLinks idx : Nat) :
    (autoRetry = false → handleVideoError hasEvent autoRetry numLinks idx = idx) ∧
    (hasEvent = true → autoRetry = true → (idx : ℤ) < (numLinks : ℤ) - 1 →
      handleVideoError hasEvent autoRetry numLinks idx = idx + 1) ∧
    (hasEvent = true → autoRetry = true → ¬((idx : ℤ) < (numLinks : ℤ) - 1) →
      handleVideoError hasEvent autoRetry numLinks idx = 0) ∧
    failoverIndexSeq 3 0 4 = [0, 1, 2, 0] := by
  refine ⟨fun h => ?_, fun h1 h2 h3 => ?_, fun h1 h2 h3 => ?_, by decide⟩
  · unfold handleVideoError
    rw [if_pos (by simp [h])]
  · unfold handleVideoError
    rw [if_neg (by simp [h1, h2]), if_pos h3]
  · unfold handleVideoError
    rw [if_neg (by simp [h1, h2]), if_neg h3]

/-- Witness for C7: advancing from index 1 of 3 candidates, wrapping
from index 2. -/
theorem c7_failover_cursor_witness :
    ((1 : ℤ) < (3 : ℤ) - 1 ∧ handleVideoError true true 3 1 = 2) ∧
    (¬((2 : ℤ) < (3 : ℤ) - 1) ∧ handleVideoError true true 3 2 = 0) :=
  ⟨⟨by decide, (c7_failover_cursor true true 3 1).2.1 rfl rfl (by decide)⟩,
   ⟨by decide, (c7_failover_cursor true true 3 2).2.2.1 rfl rfl (by decide)⟩⟩

/-- Claim C9: the channel emitted at 0-based position k by the catalog
M3U parser has id categoryId_sanitizedName_k, where the sanitizer
replaces every non-alphanumeric character with an underscore and
lower-cases the result; the id is a deterministic function of the
category id, the display name and the list position only. -/
theorem c9_channel_id (m3uContent categoryId categoryName : String) (k : Nat)
    (hk : k < (parseM3U m3uContent categoryId categoryName).length) :
    ((parseM3U m3uContent categoryId categoryName).get ⟨k, hk⟩).id
      = categoryId ++ "_" ++
        sanitizeName (((parseM3U m3uContent categoryId categoryName).get ⟨k, hk⟩).name) ++
        "_" ++ toString k := by
  unfold parseM3U at hk ⊢
  exact parseM3ULoop_id_inv categoryId categoryName _ none []
    (fun j hj => absurd hj (Nat.not_lt_zero j)) k hk

/-- Witness for C9 on a two-line playlist. -/
theorem c9_channel_id_witness :
    0 < (parseM3U "#EXTINF:-1 tvg-name=\"CNN News\",CNN\nhttp://x/s.m3u8"
          "cat1" "News").length ∧
    ((parseM3U "#EXTINF:-1 tvg-name=\"CNN News\",CNN\nhttp://x/s.m3u8"
        "cat1" "News").get ⟨0, by decide⟩).id
      = "cat1" ++ "_" ++
        sanitizeName (((parseM3U "#EXTINF:-1 tvg-name=\"CNN News\",CNN\nhttp://x/s.m3u8"
          "cat1" "News").get ⟨0, by decide⟩).name) ++ "_" ++ toString 0 :=
  ⟨by decide,
   c9_channel_id "#EXTINF:-1 tvg-name=\"CNN News\",CNN\nhttp://x/s.m3u8"
     "cat1" "News" 0 (by decide)⟩

/-- Claim C8 counterexample: a URL that merely contains .m3u8 in its
interior (not at the end) and a content-type with no HLS MIME marker is
still classified as a playlist, contradicting the ends-in rule the
claim states. -/
theorem c8_counterexample :
    isPlaylistResponse "video/mp4" "https://host/x.m3u8.mp4" = true ∧
    specUrlEndsInPlaylistExt "https://host/x.m3u8.mp4" = false ∧
    specHlsMimeMarker "video/mp4" = false := by
  exact ⟨by decide, by decide, by decide⟩

/-- Claim C8 as amended: the handler classifies a response as a playlist
iff the content-type contains mpegurl or m3u, or the lower-cased request
URL contains .m3u anywhere (not only at the end); the m3u8 and
vnd.apple.mpegurl checks of the source are subsumed. -/
theorem c8_playlist_iff_contains (contentType targetUrl : String) :
    isPlaylistResponse contentType targetUrl
      = (jsIncludes contentType "mpegurl" || jsIncludes contentType "m3u" ||
         jsIncludes (jsToLower targetUrl) ".m3u") := by
  have hBC : jsIncludes contentType "m3u8" = true →
      jsIncludes contentType "m3u" = true :=
    fun h => listIncludes_trans h (by decide)
  have hDA : jsIncludes contentType "vnd.apple.mpegurl" = true →
      jsIncludes contentType "mpegurl" = true :=
    fun h => listIncludes_trans h (by decide)
  have hEF : jsIncludes (jsToLower targetUrl) ".m3u8" = true →
      jsIncludes (jsToLower targetUrl) ".m3u" = true :=
    fun h => listIncludes_trans h (by decide)
  unfold isPlaylistResponse
  cases hA : jsIncludes contentType "mpegurl" with
  | true => simp
  | false =>
    cases hC : jsIncludes contentType "m3u" with
    | true => simp [hC]
    | false =>
      have hB : jsIncludes contentType "m3u8" = false := by
        cases hB2 : jsIncludes contentType "m3u8"
        · rfl
        · exact absurd (hBC hB2) (by simp [hC])
      have hD : jsIncludes contentType "vnd.apple.mpegurl" = false := by
        cases hD2 : jsIncludes contentType "vnd.apple.mpegurl"
        · rfl
        · exact absurd (hDA hD2) (by simp [hA])
      cases hF : jsIncludes (jsToLower targetUrl) ".m3u" with
      | true =>
        cases hE : jsIncludes (jsToLower targetUrl) ".m3u8" <;>
          simp [hB, hD, hE, hF]
      | false =>
        have hE : jsIncludes (jsToLower targetUrl) ".m3u8" = false := by
          cases hE2 : jsIncludes (jsToLower targetUrl) ".m3u8"
          · rfl
          · exact absurd (hEF hE2) (by simp [hF])
        simp [hA, hB, hC, hD, hE, hF]

/-- Claim C1 counterexample: a reference line carrying trailing
whitespace is rewritten from its trimmed form, not from the raw input
line the claim resolves, so the output differs from the claimed value. -/
theorem c1_counterexample :
    rewritePlaylist exReq exBase "seg0.ts "
      = "https://proxy.example/api/m3u8-proxy?url=https%3A%2F%2Fcdn.example.com%2Flive%2Fseg0.ts" ∧
    rewritePlaylist exReq exBase "seg0.ts "
      ≠ proxiedUrlOf exReq (resolveUrl "seg0.ts " exBase (basePathOf exBase.pathname)) ∧
    "seg0.ts " ≠ "" ∧ jsStartsWith "seg0.ts " "#" = false := by
  exact ⟨by decide, by decide, by decide, by decide⟩

/-- Claim C1 as amended: for every playlist line whose trimmed form is
nonempty and does not start with a hash, the corresponding output line
is proxyOrigin + proxyPath + url-parameter carrying the percent-encoded
resolution of the trimmed line against the response URL and base path
under the 4-tier rule. -/
theorem c1_reference_line_proxied (req : ProxyReq) (base : RespUrl) (text : String)
    (i : Nat) (line : String)
    (h1 : nlFree req.origin = true) (h2 : nlFree req.pathname = true)
    (hline : (jsSplit text (Char.ofNat 10))[i]? = some line)
    (hne : jsTrim line ≠ "") (hns : jsStartsWith (jsTrim line) "#" = false) :
    (jsSplit (rewritePlaylist req base text) (Char.ofNat 10))[i]?
      = some (proxiedUrlOf req (resolveUrl (jsTrim line) base (basePathOf base.pathname))) := by
  rw [rewritePlaylist_lines req base text h1 h2, List.getElem?_map, hline,
    Option.map_some']
  rw [rewriteLine_reference req base (basePathOf base.pathname) line hne hns]

/-- Witness for C1 on a two-line playlist whose second line is a
segment reference. -/
theorem c1_reference_line_proxied_witness :
    nlFree exReq.origin = true ∧ nlFree exReq.pathname = true ∧
    (jsSplit "#EXTM3U\nseg0.ts" (Char.ofNat 10))[1]? = some "seg0.ts" ∧
    jsTrim "seg0.ts" ≠ "" ∧ jsStartsWith (jsTrim "seg0.ts") "#" = false ∧
    (jsSplit (rewritePlaylist exReq exBase "#EXTM3U\nseg0.ts") (Char.ofNat 10))[1]?
      = some (proxiedUrlOf exReq
          (resolveUrl (jsTrim "seg0.ts") exBase (basePathOf exBase.pathname))) :=
  ⟨by decide, by decide, by decide, by decide, by decide,
   c1_reference_line_proxied exReq exBase "#EXTM3U\nseg0.ts" 1 "seg0.ts"
     (by decide) (by decide) (by decide) (by decide) (by decide)⟩

/-- Claim C2 counterexample: a tag line with leading whitespace and no
URI attribute is still changed by the rewrite (its whitespace is
trimmed), so a line can change outside its URI substrings. -/
theorem c2_counterexample :
    rewritePlaylist exReq exBase "  #EXTM3U" = "#EXTM3U" ∧
    "#EXTM3U" ≠ "  #EXTM3U" ∧
    jsIncludes "  #EXTM3U" "URI=\"" = false := by
  exact ⟨by decide, by decide, by decide⟩

/-- Claim C2 as amended: the rewrite preserves line count and order
exactly, each output line being the rewrite of the input line at the
same position; every line is first trimmed of surrounding whitespace,
and beyond that trimming only URI substrings change: blank and
URI-free tag lines pass through as their trimmed selves, reference
lines are wholly replaced by a proxied URL, and a tag line with quoted
URI attributes keeps every character outside the quoted URI values
(the shared skeleton below). -/
theorem c2_line_preservation (req : ProxyReq) (base : RespUrl) (text : String)
    (h1 : nlFree req.origin = true) (h2 : nlFree req.pathname = true) :
    ((jsSplit (rewritePlaylist req base text) (Char.ofNat 10)).length
      = (jsSplit text (Char.ofNat 10)).length) ∧
    (∀ i : Nat, (jsSplit (rewritePlaylist req base text) (Char.ofNat 10))[i]?
      = ((jsSplit text (Char.ofNat 10))[i]?).map
          (rewriteLine req base (basePathOf base.pathname))) ∧
    (∀ line : String,
      (jsTrim line = "" ∨
        (jsStartsWith (jsTrim line) "#" = true ∧
         jsIncludes (jsTrim line) "URI=\"" = false)) →
      rewriteLine req base (basePathOf base.pathname) line = jsTrim line) ∧
    (∀ line : String, jsTrim line ≠ "" → jsStartsWith (jsTrim line) "#" = false →
      rewriteLine req base (basePathOf base.pathname) line
        = proxiedUrlOf req (resolveUrl (jsTrim line) base (basePathOf base.pathname))) ∧
    (∀ line : String,
      (jsTrim line = "" ∨ jsStartsWith (jsTrim line) "#EXT" = true) →
      jsIncludes (jsTrim line) "URI=\"" = true →
      uriGlue (fun c => c) (uriDecomp (jsTrim line).data) = (jsTrim line).data ∧
      (rewriteLine req base (basePathOf base.pathname) line).data
        = uriGlue (fun uri =>
            (proxiedUrlOf req
              (resolveUrl (String.mk uri) base (basePathOf base.pathname))).data)
            (uriDecomp (jsTrim line).data)) := by
  refine ⟨?_, ?_, ?_, ?_, ?_⟩
  · rw [rewritePlaylist_lines req base text h1 h2, List.length_map]
  · intro i
    rw [rewritePlaylist_lines req base text h1 h2, List.getElem?_map]
  · intro line hcase
    exact rewriteLine_passthrough req base (basePathOf base.pathname) line hcase
  · intro line hne hns
    exact rewriteLine_reference req base (basePathOf base.pathname) line hne hns
  · intro line hcase huri
    have hskel := uriReplaceAll_skeleton
      (fun uri =>
        (proxiedUrlOf req
          (resolveUrl (String.mk uri) base (basePathOf base.pathname))).data)
      (jsTrim line).data
    refine ⟨hskel.1, ?_⟩
    unfold rewriteLine
    rw [if_pos (by rcases hcase with h | h <;> simp [h]), if_pos huri]
    exact hskel.2.symm

/-- Witness for C2 on a playlist with a key tag and a segment line. -/
theorem c2_line_preservation_witness :
    nlFree exReq.origin = true ∧ nlFree exReq.pathname = true ∧
    (jsSplit (rewritePlaylist exReq exBase
        "#EXT-X-KEY:METHOD=AES-128,URI=\"key.bin\"\nseg0.ts") (Char.ofNat 10)).length
      = (jsSplit "#EXT-X-KEY:METHOD=AES-128,URI=\"key.bin\"\nseg0.ts" (Char.ofNat 10)).length :=
  ⟨by decide, by decide,
   (c2_line_preservation exReq exBase
     "#EXT-X-KEY:METHOD=AES-128,URI=\"key.bin\"\nseg0.ts" (by decide) (by decide)).1⟩

/-- Claim C10 (code bug): for a URL that needs proxying and is not yet
proxied, the round trip getOriginalUrl(getProxiedUrl(u)) double-decodes
percent escapes (URLSearchParams.get already decodes once and the code
applies decodeURIComponent again), so a URL containing an escape comes
back changed instead of unchanged. -/
theorem c10_roundtrip_not_identity :
    needsProxying "https://example.com/a%20b.m3u8" = true ∧
    jsIncludes (jsToLower "https://example.com/a%20b.m3u8") "/api/m3u8-proxy" = false ∧
    getOriginalUrl (getProxiedUrl "https://example.com/a%20b.m3u8")
      = some "https://example.com/a b.m3u8" ∧
    ("https://example.com/a b.m3u8" : String) ≠ "https://example.com/a%20b.m3u8" := by
  exact ⟨by decide, by decide, by decide, by decide⟩

/-- Claim C5: the timeline reconciler marks the stream not-live
whenever the strategy it consults (the shaka seek range when the shaka
backend is active, otherwise the native seekable range) yields a finite
end strictly greater than 0 - even when the raw media duration is
infinite - and the returned start time is always a finite nonnegative
number (negative or non-finite starts are clamped to 0). -/
theorem c5_timeline_reconciler (refs : PlayerRefs) (video : Option VideoEl) :
    (∃ q : ℚ, (getTimeStats refs video).startTime = JSNum.num q ∧ 0 ≤ q) ∧
    (∀ (v : VideoEl) (range : SeekRange), video = some v →
      ((refs.playerType == some PlayerKind.shaka) && refs.shakaPresent) = true →
      refs.shakaSeekRange = some range →
      JSNum.finite range.rangeEnd = true →
      JSNum.lt (JSNum.num 0) range.rangeEnd = true →
      (getTimeStats refs video).isLive = false) ∧
    (∀ (v : VideoEl) (first : SeekRange) (rest : List SeekRange), video = some v →
      ((refs.playerType == some PlayerKind.shaka) && refs.shakaPresent) = false →
      v.seekable = first :: rest →
      JSNum.finite ((first :: rest).getLast (by simp)).rangeEnd = true →
      JSNum.lt (JSNum.num 0) ((first :: rest).getLast (by simp)).rangeEnd = true →
      (getTimeStats refs video).isLive = false) := by
  refine ⟨?_, ?_, ?_⟩
  · cases video with
    | none => exact ⟨0, rfl, le_refl 0⟩
    | some v =>
      unfold getTimeStats
      dsimp only
      generalize (if (refs.playerType == some PlayerKind.shaka) && refs.shakaPresent then
          match refs.shakaSeekRange with
          | some range =>
            if JSNum.finite range.rangeEnd && JSNum.lt (JSNum.num 0) range.rangeEnd then
              (range.rangeStart, range.rangeEnd, false)
            else (range.rangeStart, v.duration, !JSNum.finite v.duration)
          | none => (JSNum.num 0, v.duration, !JSNum.finite v.duration)
        else
          match v.seekable with
          | [] => (JSNum.num 0, v.duration, !JSNum.finite v.duration)
          | first :: rest =>
            if JSNum.finite ((first :: rest).getLast (by simp)).rangeEnd &&
                JSNum.lt (JSNum.num 0) ((first :: rest).getLast (by simp)).rangeEnd then
              (first.rangeStart, ((first :: rest).getLast (by simp)).rangeEnd, false)
            else (first.rangeStart, v.duration, !JSNum.finite v.duration)) = br
      obtain ⟨s1, d1, l1⟩ := br
      dsimp only
      by_cases hc : (!JSNum.finite s1 || JSNum.lt s1 (JSNum.num 0)) = true
      · rw [if_pos hc]
        exact ⟨0, rfl, le_refl 0⟩
      · rw [if_neg hc]
        simp only [Bool.or_eq_true, Bool.not_eq_true', not_or, Bool.not_eq_false] at hc
        obtain ⟨hfin, hlt⟩ := hc
        cases s1 with
        | num q =>
          refine ⟨q, rfl, ?_⟩
          simp only [JSNum.lt, decide_eq_true_eq] at hlt
          exact le_of_not_lt (by simpa using hlt)
        | inf p => simp [JSNum.finite] at hfin
        | nan => simp [JSNum.finite] at hfin
  · intro v range hv hsh hr hf hlt
    subst hv
    unfold getTimeStats
    dsimp only
    rw [if_pos hsh, hr]
    dsimp only
    rw [if_pos (by simp [hf, hlt])]
  · intro v first rest hv hsh hseek hf hlt
    subst hv
    unfold getTimeStats
    dsimp only
    rw [if_neg (by simp [hsh]), hseek]
    dsimp only
    rw [if_pos (by simp [hf, hlt])]

/-- Witness for C5: an active shaka backend with an infinite raw
duration and the seek range [60, 3660]. -/
theorem c5_timeline_reconciler_witness :
    ((exRefs.playerType == some PlayerKind.shaka) && exRefs.shakaPresent) = true ∧
    exRefs.shakaSeekRange = some ⟨JSNum.num 60, JSNum.num 3660⟩ ∧
    JSNum.finite (JSNum.num 3660) = true ∧
    JSNum.lt (JSNum.num 0) (JSNum.num 3660) = true ∧
    exVideo.duration = JSNum.inf true ∧
    (getTimeStats exRefs (some exVideo)).isLive = false :=
  ⟨by decide, rfl, rfl, by decide, rfl,
   (c5_timeline_reconciler exRefs (some exVideo)).2.1 exVideo
     ⟨JSNum.num 60, JSNum.num 3660⟩ rfl (by decide) rfl rfl (by decide)⟩

/-- Claim C6 counterexample: with a finite positive duration 50, a
start time 100 above it, a live flag off and a well-formed pointer
position, the computed target is 100, which is not within
[start, duration] as the claim states (the interval is inverted). -/
theorem c6_counterexample :
    calculateNewTime true true (JSNum.num 50) (JSNum.num 100) false
      (JSNum.num 0) (JSNum.num 10) (JSNum.num 0) = some (JSNum.num 100) ∧
    JSNum.le (JSNum.num 100) (JSNum.num 50) = false := by
  constructor
  · unfold calculateNewTime
    rw [if_neg (by decide)]
    dsimp only
    rw [jsnum_sub_num, jsnum_min2_num, jsnum_max2_num,
      jsnum_div_num _ _ (by norm_num), jsnum_sub_num, jsnum_mul_num, jsnum_add_num]
    norm_num
  · exact jsnum_le_num_false 100 50 (by norm_num)

/-- Claim C6 as amended: seeking is disabled (no target) whenever the
stream is live or the duration is non-finite or non-positive; when a
target is produced for finite inputs with a positive-width progress
bar, it equals p x (duration - start) + start for a clamped fraction p
in [0, 1], and lies between start and duration (in the interval
[min start duration, max start duration], which is [start, duration]
only when start is at most duration). -/
theorem c6_seek_target (videoPresent barPresent isLive : Bool)
    (duration startTime rectLeft rectWidth clientX : JSNum) :
    ((isLive = true ∨ JSNum.finite duration = false ∨
        JSNum.le duration (JSNum.num 0) = true) →
      calculateNewTime videoPresent barPresent duration startTime isLive
        rectLeft rectWidth clientX = none) ∧
    (∀ d s l w x : ℚ, duration = JSNum.num d → startTime = JSNum.num s →
      rectLeft = JSNum.num l → rectWidth = JSNum.num w → clientX = JSNum.num x →
      videoPresent = true → barPresent = true → isLive = false →
      0 < d → 0 < w →
      ∃ p : ℚ, 0 ≤ p ∧ p ≤ 1 ∧
        calculateNewTime videoPresent barPresent duration startTime isLive
          rectLeft rectWidth clientX = some (JSNum.num (p * (d - s) + s)) ∧
        min s d ≤ p * (d - s) + s ∧ p * (d - s) + s ≤ max s d) := by
  constructor
  · intro h
    rcases h with h | h | h <;> simp [calculateNewTime, h]
  · intro d s l w x hd hs hl hw hx hv hb hlive hdpos hwpos
    subst hd; subst hs; subst hl; subst hw; subst hx
    subst hv; subst hb; subst hlive
    have hle : JSNum.le (JSNum.num d) (JSNum.num 0) = false :=
      jsnum_le_num_false d 0 hdpos
    refine ⟨max 0 (min (x - l) w) / w, ?_, ?_, ?_, ?_, ?_⟩
    · positivity
    · rw [div_le_one hwpos]
      exact max_le (le_of_lt hwpos) (min_le_right _ _)
    · unfold calculateNewTime
      rw [if_neg (by simp [hle, JSNum.finite])]
      dsimp only
      rw [jsnum_sub_num, jsnum_min2_num, jsnum_max2_num,
        jsnum_div_num _ _ (ne_of_gt hwpos), jsnum_sub_num, jsnum_mul_num,
        jsnum_add_num]
    · rcases le_total s d with hsd | hds
      · rw [min_eq_left hsd]
        nlinarith [div_nonneg (le_max_left 0 (min (x - l) w)) (le_of_lt hwpos),
          (div_le_one hwpos).mpr (max_le (le_of_lt hwpos) (min_le_right (x - l) w))]
      · rw [min_eq_right hds]
        nlinarith [div_nonneg (le_max_left 0 (min (x - l) w)) (le_of_lt hwpos),
          (div_le_one hwpos).mpr (max_le (le_of_lt hwpos) (min_le_right (x - l) w))]
    · rcases le_total s d with hsd | hds
      · rw [max_eq_right hsd]
        nlinarith [div_nonneg (le_max_left 0 (min (x - l) w)) (le_of_lt hwpos),
          (div_le_one hwpos).mpr (max_le (le_of_lt hwpos) (min_le_right (x - l) w))]
      · rw [max_eq_left hds]
        nlinarith [div_nonneg (le_max_left 0 (min (x - l) w)) (le_of_lt hwpos),
          (div_le_one hwpos).mpr (max_le (le_of_lt hwpos) (min_le_right (x - l) w))]

/-- Witness for C6: duration 100, start 0, a 10-wide bar and a pointer
5 units in. -/
theorem c6_seek_target_witness :
    (0 : ℚ) < 100 ∧ (0 : ℚ) < 10 ∧
    (∃ p : ℚ, 0 ≤ p ∧ p ≤ 1 ∧
      calculateNewTime true true (JSNum.num 100) (JSNum.num 0) false
        (JSNum.num 0) (JSNum.num 10) (JSNum.num 5)
        = some (JSNum.num (p * ((100 : ℚ) - 0) + 0)) ∧
      min (0 : ℚ) 100 ≤ p * (100 - 0) + 0 ∧ p * ((100 : ℚ) - 0) + 0 ≤ max 0 100) :=
  ⟨by norm_num, by norm_num,
   (c6_seek_target true true false (JSNum.num 100) (JSNum.num 0) (JSNum.num 0)
      (JSNum.num 10) (JSNum.num 5)).2 100 0 0 10 5 rfl rfl rfl rfl rfl rfl rfl rfl
      (by norm_num) (by norm_num)⟩

end Shepherd
